import Mathlib

/-!
Shallow embedding of the geometric core of the Stargaze repository
(src/app.py): the constellation matcher `match_patterns` (app.py lines
28-49) and the point extractor `stargaze_engine` (app.py lines 16-26),
together with theorems settling the frozen claims about them.

Modelling conventions:

* Python floats are modelled by exact reals.  The one place where IEEE
  semantics leaks into the control flow of the matcher is the descriptor
  computation of a fully degenerate triangle: there `side_lens[2]` is `0`,
  numpy evaluates `0/0` to `nan` without raising, and `nan` compares
  false against every number.  This is modelled with `Option ℝ`
  (`none` = nan) produced by `fdiv` and consumed by `fpMatches`.
* The external scipy call `Delaunay(stars).simplices` is modelled by an
  opaque function argument `delaunay : List Point → List Simplex`;
  `cv2.imdecode` (which returns `None` for undecodable bytes rather than
  raising) is modelled by an opaque `decode` argument returning an
  `Option`.
* Python dicts (the parsed JSON reference database and the `matches` vote
  dict) are modelled as insertion-ordered association lists, which is
  exactly the iteration-order and update-order semantics of dicts:
  updating an existing key keeps its position, a new key is appended at
  the end.  `max(matches, key=matches.get)` scans the keys in that order
  and replaces its running best only on a strictly larger value, so the
  first key attaining the maximum wins; this is `maxByVal` below.
* The try/except around opening and JSON-parsing the database file is
  modelled by an `Option Db` argument to `match_patterns`
  (`none` = the file is missing or unparsable, i.e. the except branch).
-/

namespace Stargaze

/-- A detected star centroid: a 2D point in image pixel space
(one row of `stars`, app.py line 25). -/
abbrev Point : Type := ℝ × ℝ

/-- One triangle of the triangulation, as a triple of star indices
(one row of `tri.simplices`, app.py line 38). -/
abbrev Simplex : Type := ℕ × ℕ × ℕ

/-- One reference fingerprint: a descriptor entry of the JSON database
(`fp`, app.py line 43). -/
abbrev Fp : Type := List ℝ

/-- The parsed reference database: the item list of the JSON object in
file order, which is the dict insertion order iterated by
`db.items()` (app.py lines 30-31 and 42). -/
abbrev Db : Type := List (String × List Fp)

/-- Status returned when the database file cannot be read or parsed
(app.py line 32). -/
def dbMissingStatus : String := "Database not found."

/-- Status returned for fewer than 4 stars (app.py line 33). -/
def needMoreStatus : String := "Need more stars."

/-- Status returned when no constellation received a vote (app.py line 48). -/
def noPatternStatus : String := "No patterns recognized."

/-- Status returned together with a winner (app.py line 49). -/
def successStatus : String := "Success!"

/-- Euclidean distance between two points: `np.linalg.norm(p - q)`
(app.py line 40). -/
noncomputable def dist (p q : Point) : ℝ :=
  Real.sqrt ((p.1 - q.1) ^ 2 + (p.2 - q.2) ^ 2)

/-- Python `sorted([a, b, c])` on three floats (app.py line 40). -/
noncomputable def sort3 (a b c : ℝ) : List ℝ :=
  if a ≤ b then
    if b ≤ c then [a, b, c]
    else if a ≤ c then [a, c, b]
    else [c, a, b]
  else
    if a ≤ c then [b, a, c]
    else if b ≤ c then [b, c, a]
    else [c, b, a]

/-- Division as it behaves on the sorted nonnegative side lengths of
app.py line 41: a zero denominator can only occur together with a zero
numerator there, and numpy evaluates that `0/0` to `nan` without raising
an exception.  `nan` is modelled by `none`. -/
noncomputable def fdiv (a b : ℝ) : Option ℝ :=
  if b = 0 then none else some (a / b)

/-- Round half to even (the tie behaviour of Python `round`) of a real
number to an integer. -/
noncomputable def roundHalfEven (x : ℝ) : ℤ :=
  if x - Int.floor x < 1 / 2 then Int.floor x
  else if 1 / 2 < x - Int.floor x then Int.floor x + 1
  else if 2 ∣ Int.floor x then Int.floor x
  else Int.floor x + 1

/-- Python `round(x, 2)` on an exact real value. -/
noncomputable def round2 (x : ℝ) : ℝ :=
  (roundHalfEven (x * 100) : ℝ) / 100

/-- `round(x, 2)` with `nan` (`none`) passed through: `round(nan)` is
`nan` in Python. -/
noncomputable def pyRound2 (x : Option ℝ) : Option ℝ :=
  x.map round2

/-- `side_lens`: the sorted side lengths of the triangle with vertices
`p1 p2 p3` (app.py line 40). -/
noncomputable def sideLens (p1 p2 p3 : Point) : List ℝ :=
  sort3 (dist p1 p2) (dist p2 p3) (dist p3 p1)

/-- `barcode`: the shape descriptor
`[round(side_lens[0]/side_lens[2], 2), round(side_lens[1]/side_lens[2], 2)]`
of one triangle (app.py line 41).  There is no degeneracy check in the
source: when the longest side is `0` the two divisions are `0/0` and the
descriptor entries are `nan` (`none`). -/
noncomputable def triBarcode (p1 p2 p3 : Point) : List (Option ℝ) :=
  [pyRound2 (fdiv ((sideLens p1 p2 p3).getD 0 0) ((sideLens p1 p2 p3).getD 2 0)),
   pyRound2 (fdiv ((sideLens p1 p2 p3).getD 1 0) ((sideLens p1 p2 p3).getD 2 0))]

/-- The descriptor of the triangle named by a simplex:
`p1, p2, p3 = stars[simplex]` followed by the barcode computation
(app.py lines 39-41). -/
noncomputable def simplexBarcode (stars : List Point) (s : Simplex) :
    List (Option ℝ) :=
  triBarcode (stars.getD s.1 (0, 0)) (stars.getD s.2.1 (0, 0))
    (stars.getD s.2.2 (0, 0))

/-- `all(abs(b - f) < 0.05 for b, f in zip(barcode, fp))` (app.py
line 44): `zip` truncates to the shorter list, and a `nan` (`none`)
barcode entry compares false against every number. -/
noncomputable def fpMatches (barcode : List (Option ℝ)) (fp : Fp) : Bool :=
  (barcode.zip fp).all fun bf =>
    match bf.1 with
    | none => false
    | some b => decide (|b - bf.2| < 0.05)

/-- `matches[name] = matches.get(name, 0) + 1` on the insertion-ordered
vote dict (app.py line 45): an existing key keeps its position and gets
its value incremented, a new key is appended at the end with value 1. -/
def bump (m : List (String × ℕ)) (name : String) : List (String × ℕ) :=
  match m with
  | [] => [(name, 1)]
  | e :: rest => if e.1 = name then (e.1, e.2 + 1) :: rest else e :: bump rest name

/-- `matches.get(name, 0)`. -/
def lookup0 (name : String) : List (String × ℕ) → ℕ
  | [] => 0
  | e :: rest => if e.1 = name then e.2 else lookup0 name rest

/-- The scan performed by Python `max`: the running best is replaced only
on a strictly larger key value, so the first entry attaining the maximum
survives. -/
def firstMax (best : String × ℕ) : List (String × ℕ) → String × ℕ
  | [] => best
  | e :: rest => if best.2 < e.2 then firstMax e rest else firstMax best rest

/-- `max(matches, key=matches.get)` over the insertion-ordered item list
of the vote dict (app.py line 49). -/
def maxByVal : List (String × ℕ) → Option String
  | [] => none
  | e :: rest => some (firstMax e rest).1

/-- One innermost iteration of app.py lines 43-46: test one fingerprint
and, on a match, bump the constellation's vote count and append the
simplex to `valid_simplices`. -/
noncomputable def stepFp (stars : List Point) (s : Simplex) (name : String)
    (acc : List (String × ℕ) × List Simplex) (fp : Fp) :
    List (String × ℕ) × List Simplex :=
  if fpMatches (simplexBarcode stars s) fp then (bump acc.1 name, acc.2 ++ [s])
  else acc

/-- The full triple loop of app.py lines 38-46 (simplices, then database
items, then fingerprints), returning the final
`(matches, valid_simplices)` pair. -/
noncomputable def scoreFold (stars : List Point) (db : Db)
    (tri : List Simplex) : List (String × ℕ) × List Simplex :=
  tri.foldl
    (fun acc s => db.foldl (fun acc2 nf => nf.2.foldl (stepFp stars s nf.1) acc2) acc)
    ([], [])

/-- The triple returned by `match_patterns`: winner (or `None`), the
`valid_simplices` list (or `None`), and the status string. -/
structure MatchOutput where
  winner : Option String
  simplices : Option (List Simplex)
  status : String

/-- app.py lines 47-49: the part of `match_patterns` after the loop.
`if not matches` is the emptiness test on the vote dict. -/
noncomputable def scorePhase (stars : List Point) (db : Db)
    (tri : List Simplex) : MatchOutput :=
  if (scoreFold stars db tri).1 = [] then ⟨none, none, noPatternStatus⟩
  else ⟨maxByVal (scoreFold stars db tri).1, some (scoreFold stars db tri).2,
    successStatus⟩

/-- `match_patterns` (app.py lines 28-49).  The try/except around reading
and JSON-parsing the database file is modelled by the `Option Db`
argument (`none` = missing or unparsable file, the bare `except:` branch,
which catches every exception and returns instead of propagating); the
external `Delaunay(stars).simplices` call is modelled by the `delaunay`
argument.  The database check comes first, then the point-count check,
then triangulation and scoring. -/
noncomputable def match_patterns (delaunay : List Point → List Simplex)
    (stars : List Point) (dbo : Option Db) : MatchOutput :=
  match dbo with
  | none => ⟨none, none, dbMissingStatus⟩
  | some db =>
    if stars.length < 4 then ⟨none, none, needMoreStatus⟩
    else scorePhase stars db (delaunay stars)

/-- The name of the Python exception type that escapes
`stargaze_engine` when decoding fails (raised by `cv2.cvtColor` on a
`None` image). -/
def cvErrorName : String := "cv2.error"

/-- The exception name the spec expects for undecodable input.  No such
exception class is defined or raised anywhere in the source. -/
def imageDecodeErrorName : String := "ImageDecodeError"

/-- Outcome of one `stargaze_engine` call: either the detected star list
with the decoded image, or a Python exception escaping the function. -/
inductive EngineOutcome (Img : Type) where
  | ok (stars : List Point) (img : Img)
  | unhandledExc (excName : String)

/-- `stargaze_engine` (app.py lines 16-26).  `cv2.imdecode` returns
`None` for bytes that do not decode to an image (it does not raise);
this is the `decode` argument returning `none`.  The function body has
no try/except, and the very next call `cv2.cvtColor(None, ...)` raises
`cv2.error`, which therefore escapes the function unhandled.  On a
successfully decoded image the grayscale / CLAHE / threshold /
morphology / connected-components chain of lines 19-25 is total and is
modelled by the opaque `extract` argument (receiving the threshold and
minimum-area parameters of lines 22 and 25). -/
def stargaze_engine {Img : Type} (decode : List ℕ → Option Img)
    (extract : Img → ℕ → ℕ → List Point × Img) (imgBytes : List ℕ)
    (threshVal minArea : ℕ) : EngineOutcome Img :=
  match decode imgBytes with
  | none => .unhandledExc cvErrorName
  | some img =>
    .ok (extract img threshVal minArea).1 (extract img threshVal minArea).2

/-! ### Concrete inputs used by counterexamples and witnesses -/

/-- Constellation name used in the concrete database. -/
def nameA : String := "A"

/-- Second constellation name used in the concrete database. -/
def nameB : String := "B"

/-- Fingerprint of the 3-4-5 right triangle: ratios 3/5 and 4/5. -/
noncomputable def fpA : Fp := [0.6, 0.8]

/-- Fingerprint of the 5-12-13 right triangle: ratios rounded to
0.38 and 0.92. -/
noncomputable def fpB : Fp := [0.38, 0.92]

/-- The fingerprint list stored for constellation B: the same
fingerprint twice. -/
noncomputable def exFpsB : List Fp := [fpB, fpB]

/-- Concrete database: A with one fingerprint, B with the same
fingerprint listed twice. -/
noncomputable def exDb : Db := [(nameA, [fpA]), (nameB, exFpsB)]

/-- Five concrete stars: indices 0-2 form a 3-4-5 right triangle and
indices 0, 3, 4 form a 5-12-13 right triangle. -/
noncomputable def exStars : List Point := [(0, 0), (3, 0), (3, 4), (12, 0), (12, 5)]

/-- The 3-4-5 triangle of `exStars`. -/
def triA : Simplex := (0, 1, 2)

/-- The 5-12-13 triangle of `exStars`. -/
def triB : Simplex := (0, 3, 4)

/-- A concrete triangulation of `exStars`. -/
def exTri : List Simplex := [triA, triB]

/-- A concrete stand-in for the external Delaunay call, returning
`exTri`. -/
def exDelaunay : List Point → List Simplex := fun _ => exTri

/-- Three coincident stars (indices 0-2) plus one more point: the
triangle on indices 0-2 has all side lengths zero. -/
noncomputable def degStars : List Point := [(0, 0), (0, 0), (0, 0), (1, 1)]

/-- The fully degenerate triangle of `degStars`. -/
def degTri : Simplex := (0, 1, 2)

/-- A database whose only constellation has a single empty fingerprint
entry: `zip` against it is empty, so `all` is vacuously true. -/
def degDb : Db := [(nameA, [([] : Fp)])]

/-- Three concrete stars for the short-input witnesses. -/
noncomputable def stars3 : List Point := [(0, 0), (1, 0), (0, 1)]

/-- Four concrete stars for the exactly-four-points witness. -/
noncomputable def stars4 : List Point := [(0, 0), (3, 0), (3, 4), (12, 0)]

/-- Two concrete stars for the database-before-count witness. -/
noncomputable def stars2 : List Point := [(0, 0), (1, 1)]

/-- The smallest of three values. -/
noncomputable def min3 (a b c : ℝ) : ℝ := min a (min b c)

/-- The largest of three values. -/
noncomputable def max3 (a b c : ℝ) : ℝ := max a (max b c)

/-- The middle of three values. -/
noncomputable def mid3 (a b c : ℝ) : ℝ := a + b + c - min3 a b c - max3 a b c

/-- Modelled from the spec's words, for the refinement claim C5: the
descriptor is the pair (shortest side / longest side,
middle side / longest side), each ratio rounded to 2 decimal places. -/
noncomputable def specRatioDescriptor (p1 p2 p3 : Point) : ℝ × ℝ :=
  (round2 (min3 (dist p1 p2) (dist p2 p3) (dist p3 p1) /
      max3 (dist p1 p2) (dist p2 p3) (dist p3 p1)),
   round2 (mid3 (dist p1 p2) (dist p2 p3) (dist p3 p1) /
      max3 (dist p1 p2) (dist p2 p3) (dist p3 p1)))

/-- Uniform scaling of a point by a factor `k` about the origin. -/
noncomputable def scalePt (k : ℝ) (p : Point) : Point := (k * p.1, k * p.2)

/-- The vote events one simplex generates against one constellation's
fingerprint list: one copy of the constellation name per matching
fingerprint, in scan order (the inner loop of app.py lines 43-46). -/
noncomputable def fpEvents (stars : List Point) (s : Simplex) (name : String)
    (fps : List Fp) : List String :=
  fps.filterMap fun fp =>
    if fpMatches (simplexBarcode stars s) fp then some name else none

/-- The vote events one simplex generates against the whole database
(the middle loop of app.py line 42). -/
noncomputable def simplexEvents (stars : List Point) (db : Db) (s : Simplex) :
    List String :=
  db.flatMap fun nf => fpEvents stars s nf.1 nf.2

/-- All vote events of the scan in chronological order: simplices
outermost, then database entries, then fingerprints (app.py
lines 38-46). -/
noncomputable def voteEvents (stars : List Point) (db : Db)
    (tri : List Simplex) : List String :=
  tri.flatMap fun s => simplexEvents stars db s

/-- The sublist of events not already covered by the keys `K`, keeping
the first occurrence of each name: the order in which new keys enter the
vote dict. -/
def newOnes : List String → List String → List String
  | _, [] => []
  | K, e :: evs => if e ∈ K then newOnes K evs else e :: newOnes (K ++ [e]) evs

/-! ### The sorted side lengths as min / middle / max -/

/-- Sorting three values lists the minimum, the middle value and the
maximum. -/
theorem sort3_eq (a b c : ℝ) :
    sort3 a b c = [min3 a b c, mid3 a b c, max3 a b c] := by
  simp only [sort3, min3, mid3, max3]
  rcases le_or_lt a b with hab | hab
  · rcases le_or_lt b c with hbc | hbc
    · have h1 : min b c = b := min_eq_left hbc
      have h2 : max b c = c := max_eq_right hbc
      rw [if_pos hab, if_pos hbc, h1, h2, min_eq_left hab,
        max_eq_right (hab.trans hbc)]
      rw [show a + b + c - a - c = b by ring]
    · have h1 : min b c = c := min_eq_right hbc.le
      have h2 : max b c = b := max_eq_left hbc.le
      rw [if_pos hab, if_neg (not_le.mpr hbc)]
      rcases le_or_lt a c with hac | hac
      · rw [if_pos hac, h1, h2, min_eq_left hac, max_eq_right hab,
          show a + b + c - a - b = c by ring]
      · rw [if_neg (not_le.mpr hac), h1, h2, min_eq_right hac.le,
          max_eq_right hab, show a + b + c - c - b = a by ring]
  · rcases le_or_lt a c with hac | hac
    · have h1 : min b c = b := min_eq_left (hab.le.trans hac)
      have h2 : max b c = c := max_eq_right (hab.le.trans hac)
      rw [if_neg (not_le.mpr hab), if_pos hac, h1, h2, min_eq_right hab.le,
        max_eq_right hac]
      rw [show a + b + c - b - c = a by ring]
    · rw [if_neg (not_le.mpr hab), if_neg (not_le.mpr hac)]
      rcases le_or_lt b c with hbc | hbc
      · have h1 : min b c = b := min_eq_left hbc
        have h2 : max b c = c := max_eq_right hbc
        rw [if_pos hbc, h1, h2, min_eq_right hab.le, max_eq_left hac.le,
          show a + b + c - b - a = c by ring]
      · have h1 : min b c = c := min_eq_right hbc.le
        have h2 : max b c = b := max_eq_left hbc.le
        rw [if_neg (not_le.mpr hbc), h1, h2,
          min_eq_right (hbc.le.trans hab.le), max_eq_left hab.le,
          show a + b + c - c - a = b by ring]

/-! ### Evaluation helpers for concrete inputs -/

/-- Evaluation of a square root at a perfect square. -/
theorem sqrt_eval {a b : ℝ} (hb : 0 ≤ b) (h : b ^ 2 = a) : Real.sqrt a = b := by
  rw [← h, Real.sqrt_sq hb]

/-- Evaluation of `dist` at points with a rational distance. -/
theorem dist_eval (x1 y1 x2 y2 r : ℝ) (hr : 0 ≤ r)
    (h : r ^ 2 = (x1 - x2) ^ 2 + (y1 - y2) ^ 2) :
    dist (x1, y1) (x2, y2) = r :=
  sqrt_eval hr h

/-- A distance is nonnegative. -/
theorem dist_nonneg' (p q : Point) : 0 ≤ dist p q := Real.sqrt_nonneg _

/-- Evaluation of `roundHalfEven` when the value lies in the lower half
of its unit interval. -/
theorem roundHE_eval {x : ℝ} {n : ℤ} (h1 : (n : ℝ) ≤ x)
    (h2 : x < (n : ℝ) + 1 / 2) : roundHalfEven x = n := by
  have hf : Int.floor x = n := Int.floor_eq_iff.mpr ⟨h1, by linarith⟩
  unfold roundHalfEven
  rw [hf, if_pos (by linarith)]

/-- Evaluation of `round2` when `x * 100` lies in the lower half of its
unit interval. -/
theorem round2_eval (x : ℝ) (n : ℤ) (h1 : (n : ℝ) ≤ x * 100)
    (h2 : x * 100 < (n : ℝ) + 1 / 2) : round2 x = (n : ℝ) / 100 := by
  unfold round2
  rw [roundHE_eval h1 h2]

/-! ### Claims C6, C7, C10: the guard structure of match_patterns -/

/-- C7: for every input, when the reference database file is missing or
cannot be parsed (the `Option Db` argument is `none`, i.e. the bare
`except:` branch of app.py lines 29-32 fired), `match_patterns` returns
no winner and no triangles together with the database status string, and
— being total, since that `except:` catches every exception — propagates
no exception to its caller. -/
theorem C7_db_missing (delaunay : List Point → List Simplex)
    (stars : List Point) :
    match_patterns delaunay stars none = ⟨none, none, dbMissingStatus⟩ := rfl

/-- C10: the database availability check (app.py lines 29-32) precedes
the point-count check (app.py line 33): for every point set with fewer
than 4 points submitted while the database is unavailable, the returned
status is the database status, not the insufficient-points status. -/
theorem C10_db_before_count (delaunay : List Point → List Simplex)
    (stars : List Point) (h : stars.length < 4) :
    match_patterns delaunay stars none = ⟨none, none, dbMissingStatus⟩ ∧
      dbMissingStatus ≠ needMoreStatus :=
  ⟨rfl, by decide⟩

/-- Witness for C10 at a concrete 2-point input. -/
theorem C10_db_before_count_witness :
    match_patterns exDelaunay stars2 none = ⟨none, none, dbMissingStatus⟩ ∧
      dbMissingStatus ≠ needMoreStatus :=
  C10_db_before_count exDelaunay stars2 (by decide)

/-- C6: with a readable database, fewer than 4 points yields no winner,
no triangles and the insufficient-points status, without depending on
the triangulation (the same constant triple is returned for every
`delaunay`); with exactly 4 points `match_patterns` proceeds to
triangulation and scoring, i.e. returns exactly the result of the
scoring phase applied to the triangulation of the points. -/
theorem C6_point_gate (delaunay : List Point → List Simplex)
    (stars : List Point) (db : Db) :
    (stars.length < 4 →
      match_patterns delaunay stars (some db) = ⟨none, none, needMoreStatus⟩) ∧
    (stars.length = 4 →
      match_patterns delaunay stars (some db) =
        scorePhase stars db (delaunay stars)) := by
  constructor
  · intro h
    simp [match_patterns, h]
  · intro h
    simp [match_patterns, h]

/-- Witness for C6 at a concrete 3-point input and a concrete 4-point
input. -/
theorem C6_point_gate_witness :
    match_patterns exDelaunay stars3 (some exDb) = ⟨none, none, needMoreStatus⟩ ∧
    match_patterns exDelaunay stars4 (some exDb) =
      scorePhase stars4 exDb (exDelaunay stars4) :=
  ⟨(C6_point_gate exDelaunay stars3 exDb).1 (by decide),
   (C6_point_gate exDelaunay stars4 exDb).2 (by decide)⟩

/-! ### Claim C4: there is no degeneracy guard in the descriptor code -/

/-- Extraction of the first entry of a three-element list. -/
theorem getD3_0 (x y z d : ℝ) : List.getD [x, y, z] 0 d = x := rfl

/-- Extraction of the second entry of a three-element list. -/
theorem getD3_1 (x y z d : ℝ) : List.getD [x, y, z] 1 d = y := rfl

/-- Extraction of the third entry of a three-element list. -/
theorem getD3_2 (x y z d : ℝ) : List.getD [x, y, z] 2 d = z := rfl

/-- A triangle all of whose sides are zero still gets a descriptor
computed: both `0/0` entries are nan (`none`). -/
theorem triBarcode_deg {p1 p2 p3 : Point} (h1 : dist p1 p2 = 0)
    (h2 : dist p2 p3 = 0) (h3 : dist p3 p1 = 0) :
    triBarcode p1 p2 p3 = [none, none] := by
  unfold triBarcode sideLens
  rw [h1, h2, h3]
  simp [sort3, fdiv, pyRound2]

/-- The distance of the coincident concrete star evaluated. -/
theorem degDist : dist ((0 : ℝ), (0 : ℝ)) ((0 : ℝ), (0 : ℝ)) = 0 :=
  dist_eval 0 0 0 0 0 le_rfl (by norm_num)

/-- C4 counterexample: the matcher does not skip a triangle whose longest
side is zero.  On the concrete degenerate triangle `degTri` of `degStars`
(three coincident stars) the code computes a descriptor — the nan pair,
from two `0/0` divisions — instead of skipping, and against a database
whose only reference entry is the empty list that unskipped triangle even
votes and wins (because `zip` against the empty fingerprint is empty and
`all` is vacuously true), contradicting the claimed skip. -/
theorem C4_counterexample :
    simplexBarcode degStars degTri = [none, none] ∧
    (match_patterns (fun _ => [degTri]) degStars (some degDb)).winner = some nameA ∧
    (match_patterns (fun _ => [degTri]) degStars (some degDb)).simplices =
      some [degTri] := by
  have hb : simplexBarcode degStars degTri = [none, none] :=
    triBarcode_deg degDist degDist degDist
  have hm : fpMatches (simplexBarcode degStars degTri) ([] : Fp) = true := by
    rw [hb]; rfl
  have hrun : match_patterns (fun _ => [degTri]) degStars (some degDb) =
      ⟨some nameA, some [degTri], successStatus⟩ := by
    have hlen : ¬ degStars.length < 4 := by norm_num [degStars]
    simp only [match_patterns, if_neg hlen]
    unfold scorePhase scoreFold degDb
    simp only [List.foldl_cons, List.foldl_nil]
    unfold stepFp
    rw [hm]
    simp [bump, maxByVal, firstMax]
  exact ⟨hb, by rw [hrun], by rw [hrun]⟩

/-- C4 (amended): the code of app.py lines 40-41 contains no degeneracy
check.  For a triangle whose longest side length is zero the descriptor
is still computed; its entries are nan (`none`, from `0/0`), and since
nan comparisons are false such a triangle matches no nonempty reference
fingerprint, so it adds no vote — the computation also cannot crash (it
is total; numpy turns `0/0` into nan without raising, and collinear but
not coincident points divide by a strictly positive longest side).  The
triangle is, however, not skipped: see the counterexample, where it
matches an empty fingerprint vacuously. -/
theorem C4_degenerate (p1 p2 p3 : Point)
    (hdeg : max3 (dist p1 p2) (dist p2 p3) (dist p3 p1) = 0) :
    triBarcode p1 p2 p3 = [none, none] ∧
    ∀ fp : Fp, fp ≠ [] → fpMatches (triBarcode p1 p2 p3) fp = false := by
  have hle1 : dist p1 p2 ≤ max3 (dist p1 p2) (dist p2 p3) (dist p3 p1) :=
    le_max_left _ _
  have hle2 : dist p2 p3 ≤ max3 (dist p1 p2) (dist p2 p3) (dist p3 p1) :=
    (le_max_left _ _).trans (le_max_right _ _)
  have hle3 : dist p3 p1 ≤ max3 (dist p1 p2) (dist p2 p3) (dist p3 p1) :=
    (le_max_right _ _).trans (le_max_right _ _)
  have h1 : dist p1 p2 = 0 := le_antisymm (hdeg ▸ hle1) (dist_nonneg' p1 p2)
  have h2 : dist p2 p3 = 0 := le_antisymm (hdeg ▸ hle2) (dist_nonneg' p2 p3)
  have h3 : dist p3 p1 = 0 := le_antisymm (hdeg ▸ hle3) (dist_nonneg' p3 p1)
  have hb := triBarcode_deg h1 h2 h3
  refine ⟨hb, fun fp hfp => ?_⟩
  obtain ⟨f, rest, rfl⟩ := List.exists_cons_of_ne_nil hfp
  rw [hb]
  rfl

/-- Witness for C4_degenerate at the concrete coincident triangle and a
concrete nonempty fingerprint. -/
theorem C4_degenerate_witness :
    max3 (dist ((0 : ℝ), (0 : ℝ)) ((0 : ℝ), (0 : ℝ)))
        (dist ((0 : ℝ), (0 : ℝ)) ((0 : ℝ), (0 : ℝ)))
        (dist ((0 : ℝ), (0 : ℝ)) ((0 : ℝ), (0 : ℝ))) = 0 ∧
    triBarcode ((0 : ℝ), (0 : ℝ)) ((0 : ℝ), (0 : ℝ)) ((0 : ℝ), (0 : ℝ)) =
      [none, none] ∧
    fpMatches
      (triBarcode ((0 : ℝ), (0 : ℝ)) ((0 : ℝ), (0 : ℝ)) ((0 : ℝ), (0 : ℝ)))
      [0.5] = false := by
  have hdeg : max3 (dist ((0 : ℝ), (0 : ℝ)) ((0 : ℝ), (0 : ℝ)))
      (dist ((0 : ℝ), (0 : ℝ)) ((0 : ℝ), (0 : ℝ)))
      (dist ((0 : ℝ), (0 : ℝ)) ((0 : ℝ), (0 : ℝ))) = 0 := by
    rw [degDist]; simp [max3]
  exact ⟨hdeg, (C4_degenerate _ _ _ hdeg).1,
    (C4_degenerate _ _ _ hdeg).2 [0.5] (by simp)⟩

/-! ### Claim C5: the descriptor is (shortest/longest, middle/longest) -/

/-- C5: for every non-degenerate triangle (positive longest side), the
computed barcode equals the spec's descriptor: shortest/longest and
middle/longest, each rounded to 2 decimal places. -/
theorem C5_descriptor (p1 p2 p3 : Point)
    (h : 0 < max3 (dist p1 p2) (dist p2 p3) (dist p3 p1)) :
    triBarcode p1 p2 p3 =
      [some (specRatioDescriptor p1 p2 p3).1,
       some (specRatioDescriptor p1 p2 p3).2] := by
  unfold triBarcode sideLens specRatioDescriptor
  rw [sort3_eq, getD3_0, getD3_1, getD3_2]
  simp only [fdiv, if_neg h.ne', pyRound2, Option.map_some']

/-- Witness for C5 at the concrete 3-4-5 triangle. -/
theorem C5_descriptor_witness :
    0 < max3 (dist ((0 : ℝ), (0 : ℝ)) ((3 : ℝ), (0 : ℝ)))
        (dist ((3 : ℝ), (0 : ℝ)) ((3 : ℝ), (4 : ℝ)))
        (dist ((3 : ℝ), (4 : ℝ)) ((0 : ℝ), (0 : ℝ))) ∧
    triBarcode ((0 : ℝ), (0 : ℝ)) ((3 : ℝ), (0 : ℝ)) ((3 : ℝ), (4 : ℝ)) =
      [some (specRatioDescriptor ((0 : ℝ), (0 : ℝ)) ((3 : ℝ), (0 : ℝ))
          ((3 : ℝ), (4 : ℝ))).1,
       some (specRatioDescriptor ((0 : ℝ), (0 : ℝ)) ((3 : ℝ), (0 : ℝ))
          ((3 : ℝ), (4 : ℝ))).2] := by
  have h1 : dist ((0 : ℝ), (0 : ℝ)) ((3 : ℝ), (0 : ℝ)) = 3 :=
    dist_eval 0 0 3 0 3 (by norm_num) (by norm_num)
  have hpos : 0 < max3 (dist ((0 : ℝ), (0 : ℝ)) ((3 : ℝ), (0 : ℝ)))
      (dist ((3 : ℝ), (0 : ℝ)) ((3 : ℝ), (4 : ℝ)))
      (dist ((3 : ℝ), (4 : ℝ)) ((0 : ℝ), (0 : ℝ))) := by
    unfold max3
    calc (0 : ℝ) < 3 := by norm_num
    _ = dist ((0 : ℝ), (0 : ℝ)) ((3 : ℝ), (0 : ℝ)) := h1.symm
    _ ≤ _ := le_max_left _ _
  exact ⟨hpos, C5_descriptor _ _ _ hpos⟩

/-! ### Claim C9: scale invariance of the ratio descriptor -/

/-- Scaling the points scales the distance. -/
theorem dist_scale (k : ℝ) (hk : 0 ≤ k) (p q : Point) :
    dist (scalePt k p) (scalePt k q) = k * dist p q := by
  show Real.sqrt ((k * p.1 - k * q.1) ^ 2 + (k * p.2 - k * q.2) ^ 2) =
    k * Real.sqrt ((p.1 - q.1) ^ 2 + (p.2 - q.2) ^ 2)
  rw [show (k * p.1 - k * q.1) ^ 2 + (k * p.2 - k * q.2) ^ 2 =
      k ^ 2 * ((p.1 - q.1) ^ 2 + (p.2 - q.2) ^ 2) by ring,
    Real.sqrt_mul (sq_nonneg k), Real.sqrt_sq hk]

/-- A nonnegative factor distributes over the minimum of three values. -/
theorem min3_smul (k a b c : ℝ) (hk : 0 ≤ k) :
    min3 (k * a) (k * b) (k * c) = k * min3 a b c := by
  unfold min3
  rw [← mul_min_of_nonneg b c hk, ← mul_min_of_nonneg a (min b c) hk]

/-- A nonnegative factor distributes over the maximum of three values. -/
theorem max3_smul (k a b c : ℝ) (hk : 0 ≤ k) :
    max3 (k * a) (k * b) (k * c) = k * max3 a b c := by
  unfold max3
  rw [← mul_max_of_nonneg b c hk, ← mul_max_of_nonneg a (max b c) hk]

/-- A nonnegative factor distributes over the middle of three values. -/
theorem mid3_smul (k a b c : ℝ) (hk : 0 ≤ k) :
    mid3 (k * a) (k * b) (k * c) = k * mid3 a b c := by
  unfold mid3
  rw [min3_smul _ _ _ _ hk, max3_smul _ _ _ _ hk]
  ring

/-- Scaling numerator and denominator by a nonzero factor cancels in the
guarded division. -/
theorem fdiv_scale (k a b : ℝ) (hk : k ≠ 0) : fdiv (k * a) (k * b) = fdiv a b := by
  unfold fdiv
  by_cases hb : b = 0
  · simp [hb]
  · rw [if_neg (mul_ne_zero hk hb), if_neg hb, mul_div_mul_left a b hk]

/-- C9: for every non-degenerate triangle and every positive scale factor
`k`, the descriptor computed from the uniformly scaled vertices equals
the descriptor of the original vertices (exact arithmetic), and hence
every fingerprint comparison gives the same answer on the scaled
triangle as on the original one. -/
theorem C9_scale_invariance (p1 p2 p3 : Point) (k : ℝ) (hk : 0 < k)
    (h : 0 < max3 (dist p1 p2) (dist p2 p3) (dist p3 p1)) :
    triBarcode (scalePt k p1) (scalePt k p2) (scalePt k p3) =
      triBarcode p1 p2 p3 ∧
    ∀ fp : Fp,
      fpMatches (triBarcode (scalePt k p1) (scalePt k p2) (scalePt k p3)) fp =
        fpMatches (triBarcode p1 p2 p3) fp := by
  have hbc : triBarcode (scalePt k p1) (scalePt k p2) (scalePt k p3) =
      triBarcode p1 p2 p3 := by
    unfold triBarcode sideLens
    rw [dist_scale k hk.le p1 p2, dist_scale k hk.le p2 p3,
      dist_scale k hk.le p3 p1, sort3_eq, sort3_eq,
      min3_smul _ _ _ _ hk.le, mid3_smul _ _ _ _ hk.le, max3_smul _ _ _ _ hk.le,
      getD3_0, getD3_1, getD3_2, getD3_0, getD3_1, getD3_2,
      fdiv_scale _ _ _ hk.ne', fdiv_scale _ _ _ hk.ne']
  exact ⟨hbc, fun fp => by rw [hbc]⟩

/-- Witness for C9 at the concrete 3-4-5 triangle scaled by 2. -/
theorem C9_scale_invariance_witness :
    (0 : ℝ) < 2 ∧
    0 < max3 (dist ((0 : ℝ), (0 : ℝ)) ((3 : ℝ), (0 : ℝ)))
        (dist ((3 : ℝ), (0 : ℝ)) ((3 : ℝ), (4 : ℝ)))
        (dist ((3 : ℝ), (4 : ℝ)) ((0 : ℝ), (0 : ℝ))) ∧
    triBarcode (scalePt 2 ((0 : ℝ), (0 : ℝ))) (scalePt 2 ((3 : ℝ), (0 : ℝ)))
        (scalePt 2 ((3 : ℝ), (4 : ℝ))) =
      triBarcode ((0 : ℝ), (0 : ℝ)) ((3 : ℝ), (0 : ℝ)) ((3 : ℝ), (4 : ℝ)) := by
  have h1 : dist ((0 : ℝ), (0 : ℝ)) ((3 : ℝ), (0 : ℝ)) = 3 :=
    dist_eval 0 0 3 0 3 (by norm_num) (by norm_num)
  have hpos : 0 < max3 (dist ((0 : ℝ), (0 : ℝ)) ((3 : ℝ), (0 : ℝ)))
      (dist ((3 : ℝ), (0 : ℝ)) ((3 : ℝ), (4 : ℝ)))
      (dist ((3 : ℝ), (4 : ℝ)) ((0 : ℝ), (0 : ℝ))) := by
    unfold max3
    calc (0 : ℝ) < 3 := by norm_num
    _ = dist ((0 : ℝ), (0 : ℝ)) ((3 : ℝ), (0 : ℝ)) := h1.symm
    _ ≤ _ := le_max_left _ _
  exact ⟨by norm_num, hpos,
    (C9_scale_invariance ((0 : ℝ), (0 : ℝ)) ((3 : ℝ), (0 : ℝ)) ((3 : ℝ), (4 : ℝ)) 2
      (by norm_num) hpos).1⟩

/-! ### The vote dict as a fold over the chronological event stream -/

/-- One unfolding of `simplexEvents`. -/
theorem simplexEvents_cons (stars : List Point) (nf : String × List Fp)
    (db : Db) (s : Simplex) :
    simplexEvents stars (nf :: db) s =
      fpEvents stars s nf.1 nf.2 ++ simplexEvents stars db s := by
  unfold simplexEvents
  rw [List.flatMap_cons]

/-- One unfolding of `voteEvents`. -/
theorem voteEvents_cons (stars : List Point) (db : Db) (s : Simplex)
    (tri : List Simplex) :
    voteEvents stars db (s :: tri) =
      simplexEvents stars db s ++ voteEvents stars db tri := by
  unfold voteEvents
  rw [List.flatMap_cons]

/-- The innermost fingerprint loop, as bumps over its event list plus the
replicated simplex appended to the log. -/
theorem foldl_stepFp (stars : List Point) (s : Simplex) (name : String)
    (fps : List Fp) : ∀ (m : List (String × ℕ)) (v : List Simplex),
    fps.foldl (stepFp stars s name) (m, v) =
      ((fpEvents stars s name fps).foldl bump m,
       v ++ List.replicate (fpEvents stars s name fps).length s) := by
  induction fps with
  | nil => intro m v; simp [fpEvents]
  | cons fp fps ih =>
    intro m v
    by_cases hm : fpMatches (simplexBarcode stars s) fp = true
    · have hstep : stepFp stars s name (m, v) fp = (bump m name, v ++ [s]) := by
        unfold stepFp
        rw [hm]
        simp
      have hev : fpEvents stars s name (fp :: fps) =
          name :: fpEvents stars s name fps := by
        unfold fpEvents
        rw [List.filterMap_cons, hm]
        simp
      rw [List.foldl_cons, hstep, ih, hev]
      simp only [List.foldl_cons, List.length_cons, List.replicate_succ,
        List.append_assoc, List.singleton_append]
    · rw [Bool.not_eq_true] at hm
      have hstep : stepFp stars s name (m, v) fp = (m, v) := by
        unfold stepFp
        rw [hm]
        simp
      have hev : fpEvents stars s name (fp :: fps) =
          fpEvents stars s name fps := by
        unfold fpEvents
        rw [List.filterMap_cons, hm]
        simp
      rw [List.foldl_cons, hstep, ih, hev]

/-- The middle database loop, as bumps over the simplex's event list. -/
theorem foldl_dbStep (stars : List Point) (s : Simplex) (db : Db) :
    ∀ (m : List (String × ℕ)) (v : List Simplex),
    db.foldl (fun acc2 nf => nf.2.foldl (stepFp stars s nf.1) acc2) (m, v) =
      ((simplexEvents stars db s).foldl bump m,
       v ++ List.replicate (simplexEvents stars db s).length s) := by
  induction db with
  | nil => intro m v; simp [simplexEvents]
  | cons nf db ih =>
    intro m v
    simp only [List.foldl_cons]
    rw [foldl_stepFp, ih, simplexEvents_cons]
    simp only [List.foldl_append, List.length_append, List.replicate_add,
      List.append_assoc]

/-- The outer simplex loop with a general accumulator. -/
theorem scoreFold_loop (stars : List Point) (db : Db) :
    ∀ (tri : List Simplex) (m : List (String × ℕ)) (v : List Simplex),
    tri.foldl
      (fun acc s => db.foldl (fun acc2 nf => nf.2.foldl (stepFp stars s nf.1) acc2) acc)
      (m, v) =
      ((voteEvents stars db tri).foldl bump m,
       v ++ tri.flatMap fun s => List.replicate (simplexEvents stars db s).length s) := by
  intro tri
  induction tri with
  | nil => intro m v; simp [voteEvents]
  | cons s tri ih =>
    intro m v
    simp only [List.foldl_cons]
    rw [foldl_dbStep, ih, voteEvents_cons]
    simp only [List.foldl_append, List.flatMap_cons, List.append_assoc]

/-- The loop of app.py lines 38-46 in closed form: the vote dict is the
bump-fold over the chronological event stream, and `valid_simplices`
lists every simplex once per match it produced, in scan order. -/
theorem scoreFold_eq (stars : List Point) (db : Db) (tri : List Simplex) :
    scoreFold stars db tri =
      ((voteEvents stars db tri).foldl bump [],
       tri.flatMap fun s => List.replicate (simplexEvents stars db s).length s) := by
  unfold scoreFold
  rw [scoreFold_loop]
  simp

/-! ### Association-list lemmas for the vote dict -/

/-- `bump` adds one to exactly the bumped key. -/
theorem bump_lookup0 (name k : String) :
    ∀ m : List (String × ℕ),
    lookup0 k (bump m name) = lookup0 k m + if k = name then 1 else 0 := by
  intro m
  induction m with
  | nil =>
    by_cases h : k = name
    · subst h; simp [bump, lookup0]
    · simp [bump, lookup0, h, Ne.symm h]
  | cons e m ih =>
    by_cases he : e.1 = name
    · simp only [bump, if_pos he]
      by_cases hk : k = name
      · have he2 : e.1 = k := by rw [he, hk]
        simp [lookup0, he2, hk]
      · have he2 : ¬ e.1 = k := by
          rw [he]
          exact fun hh => hk hh.symm
        simp [lookup0, he2, hk]
    · simp only [bump, if_neg he]
      by_cases hek : e.1 = k
      · have hk : ¬ k = name := fun hh => he (hek.trans hh)
        simp [lookup0, hek, hk]
      · simp [lookup0, hek, ih]

/-- `bump` keeps the key list, appending a key only when it is new. -/
theorem bump_keys (name : String) :
    ∀ m : List (String × ℕ),
    (bump m name).map Prod.fst =
      if name ∈ m.map Prod.fst then m.map Prod.fst
      else m.map Prod.fst ++ [name] := by
  intro m
  induction m with
  | nil => simp [bump]
  | cons e m ih =>
    by_cases he : e.1 = name
    · simp [bump, he]
    · have hne : ¬ name = e.1 := fun hh => he hh.symm
      simp only [bump, if_neg he, List.map_cons, ih]
      by_cases hm : name ∈ m.map Prod.fst
      · simp [hm, hne]
      · simp [hm, hne]

/-- Folding bumps gives occurrence counts. -/
theorem foldl_bump_lookup0 (evs : List String) :
    ∀ (m : List (String × ℕ)) (k : String),
    lookup0 k (evs.foldl bump m) = lookup0 k m + List.count k evs := by
  induction evs with
  | nil => intro m k; simp
  | cons e evs ih =>
    intro m k
    rw [List.foldl_cons, ih, bump_lookup0]
    by_cases h : k = e
    · subst h
      rw [List.count_cons_self, if_pos rfl]
      omega
    · rw [List.count_cons_of_ne h, if_neg h]
      omega

/-- Folding bumps lists the keys in order of first encounter. -/
theorem foldl_bump_keys (evs : List String) :
    ∀ m : List (String × ℕ),
    (evs.foldl bump m).map Prod.fst =
      m.map Prod.fst ++ newOnes (m.map Prod.fst) evs := by
  induction evs with
  | nil => intro m; simp [newOnes]
  | cons e evs ih =>
    intro m
    rw [List.foldl_cons, ih, bump_keys]
    by_cases he : e ∈ m.map Prod.fst
    · rw [if_pos he]
      simp [newOnes, he]
    · rw [if_neg he]
      simp [newOnes, he, List.append_assoc]

/-- Every new key is outside the accumulated keys and inside the
events. -/
theorem newOnes_mem (evs : List String) :
    ∀ (K : List String) (a : String), a ∈ newOnes K evs → a ∉ K ∧ a ∈ evs := by
  induction evs with
  | nil => intro K a h; simp [newOnes] at h
  | cons e evs ih =>
    intro K a h
    unfold newOnes at h
    by_cases he : e ∈ K
    · rw [if_pos he] at h
      obtain ⟨h1, h2⟩ := ih K a h
      exact ⟨h1, List.mem_cons_of_mem _ h2⟩
    · rw [if_neg he] at h
      rcases List.mem_cons.mp h with rfl | h2
      · exact ⟨he, List.mem_cons_self _ _⟩
      · obtain ⟨h1, h2⟩ := ih (K ++ [e]) a h2
        exact ⟨fun hk => h1 (List.mem_append_left _ hk), List.mem_cons_of_mem _ h2⟩

/-- Every event outside the accumulated keys shows up as a new key. -/
theorem mem_newOnes (evs : List String) :
    ∀ (K : List String) (a : String), a ∈ evs → a ∉ K → a ∈ newOnes K evs := by
  induction evs with
  | nil => intro K a h; simp at h
  | cons e evs ih =>
    intro K a ha hK
    unfold newOnes
    by_cases he : e ∈ K
    · rw [if_pos he]
      rcases List.mem_cons.mp ha with rfl | ha2
      · exact absurd he hK
      · exact ih K a ha2 hK
    · rw [if_neg he]
      rcases List.mem_cons.mp ha with rfl | ha2
      · exact List.mem_cons_self _ _
      · by_cases hae : a = e
        · subst hae
          exact List.mem_cons_self _ _
        · refine List.mem_cons_of_mem _ (ih (K ++ [e]) a ha2 ?_)
          intro hmem
          rcases List.mem_append.mp hmem with hh | hh
          · exact hK hh
          · exact hae (List.mem_singleton.mp hh)

/-- The new keys are listed in strictly increasing order of their first
occurrence in the event stream. -/
theorem newOnes_pairwise (evs : List String) :
    ∀ K : List String,
    (newOnes K evs).Pairwise fun a b => evs.indexOf a < evs.indexOf b := by
  induction evs with
  | nil => intro K; simp [newOnes]
  | cons e evs ih =>
    intro K
    unfold newOnes
    by_cases he : e ∈ K
    · rw [if_pos he]
      refine (ih K).imp_of_mem ?_
      intro a b ha hb hab
      have hane : e ≠ a := fun h => (newOnes_mem evs K a ha).1 (h ▸ he)
      have hbne : e ≠ b := fun h => (newOnes_mem evs K b hb).1 (h ▸ he)
      rw [List.indexOf_cons_ne _ hane, List.indexOf_cons_ne _ hbne]
      exact Nat.succ_lt_succ hab
    · rw [if_neg he]
      refine List.Pairwise.cons ?_ ?_
      · intro b hb
        have hbK := (newOnes_mem evs (K ++ [e]) b hb).1
        have hbne : e ≠ b := fun h =>
          hbK (h ▸ List.mem_append_right K (List.mem_singleton_self e))
        rw [List.indexOf_cons_self, List.indexOf_cons_ne _ hbne]
        exact Nat.succ_pos _
      · refine (ih (K ++ [e])).imp_of_mem ?_
        intro a b ha hb hab
        have hane : e ≠ a := fun h =>
          (newOnes_mem evs _ a ha).1 (h ▸ List.mem_append_right K (List.mem_singleton_self e))
        have hbne : e ≠ b := fun h =>
          (newOnes_mem evs _ b hb).1 (h ▸ List.mem_append_right K (List.mem_singleton_self e))
        rw [List.indexOf_cons_ne _ hane, List.indexOf_cons_ne _ hbne]
        exact Nat.succ_lt_succ hab

/-- A key of an association list appears with its looked-up value. -/
theorem lookup0_mem (k : String) :
    ∀ m : List (String × ℕ), k ∈ m.map Prod.fst → (k, lookup0 k m) ∈ m := by
  intro m
  induction m with
  | nil => intro h; simp at h
  | cons e m ih =>
    intro h
    simp only [lookup0]
    by_cases he : e.1 = k
    · rw [if_pos he]
      have hek : (k, e.2) = e := by rw [← he]
      rw [hek]
      exact List.mem_cons_self e m
    · rw [if_neg he]
      simp only [List.map_cons, List.mem_cons] at h
      rcases h with h1 | h1
      · exact absurd h1.symm he
      · exact List.mem_cons_of_mem _ (ih h1)

/-- On an association list with distinct keys, membership determines the
looked-up value. -/
theorem mem_lookup0 (k : String) (v : ℕ) :
    ∀ m : List (String × ℕ), (m.map Prod.fst).Nodup → (k, v) ∈ m →
    lookup0 k m = v := by
  intro m
  induction m with
  | nil => intro _ h; simp at h
  | cons e m ih =>
    intro hnd h
    simp only [List.map_cons, List.nodup_cons] at hnd
    rcases List.mem_cons.mp h with rfl | h2
    · simp [lookup0]
    · have hek : ¬ e.1 = k := by
        intro hh
        exact hnd.1 (hh ▸ List.mem_map_of_mem Prod.fst h2)
      simp only [lookup0, if_neg hek]
      exact ih hnd.2 h2

/-- The scan of Python `max` returns an entry of the list whose value is
maximal, and everything strictly before that entry has a strictly
smaller value: the first maximum wins. -/
theorem firstMax_spec (l : List (String × ℕ)) :
    ∀ best : String × ℕ,
    (∀ x ∈ best :: l, x.2 ≤ (firstMax best l).2) ∧
    ∃ l1 l2, best :: l = l1 ++ firstMax best l :: l2 ∧
      ∀ x ∈ l1, x.2 < (firstMax best l).2 := by
  induction l with
  | nil =>
    intro best
    refine ⟨?_, [], [], rfl, by simp⟩
    intro x hx
    rcases List.mem_cons.mp hx with rfl | h
    · exact le_rfl
    · simp at h
  | cons e l ih =>
    intro best
    simp only [firstMax]
    by_cases hc : best.2 < e.2
    · rw [if_pos hc]
      obtain ⟨hmax, l1, l2, hsplit, hlt⟩ := ih e
      refine ⟨?_, best :: l1, l2, by rw [List.cons_append, ← hsplit], ?_⟩
      · intro x hx
        rcases List.mem_cons.mp hx with rfl | hx2
        · exact le_trans hc.le (hmax e (List.mem_cons_self _ _))
        · exact hmax x hx2
      · intro x hx
        rcases List.mem_cons.mp hx with rfl | hx2
        · exact lt_of_lt_of_le hc (hmax e (List.mem_cons_self _ _))
        · exact hlt x hx2
    · rw [if_neg hc]
      obtain ⟨hmax, l1, l2, hsplit, hlt⟩ := ih best
      refine ⟨?_, ?_⟩
      · intro x hx
        rcases List.mem_cons.mp hx with rfl | hx2
        · exact hmax x (List.mem_cons_self _ _)
        rcases List.mem_cons.mp hx2 with rfl | hx3
        · exact le_trans (not_lt.mp hc) (hmax best (List.mem_cons_self _ _))
        · exact hmax x (List.mem_cons_of_mem _ hx3)
      · cases l1 with
        | nil =>
          rw [List.nil_append] at hsplit
          injection hsplit with hh ht
          refine ⟨[], e :: l, ?_, by simp⟩
          rw [List.nil_append, ← hh, ht]
        | cons b l1 =>
          rw [List.cons_append] at hsplit
          injection hsplit with hh ht
          refine ⟨best :: e :: l1, l2, ?_, ?_⟩
          · rw [List.cons_append, List.cons_append, ← ht]
          · intro x hx
            have hbmem : best ∈ b :: l1 := by
              rw [← hh]
              exact List.mem_cons_self _ _
            rcases List.mem_cons.mp hx with rfl | hx2
            · exact hlt x hbmem
            rcases List.mem_cons.mp hx2 with rfl | hx3
            · exact lt_of_le_of_lt (not_lt.mp hc) (hlt best hbmem)
            · exact hlt x (List.mem_cons_of_mem _ hx3)

/-! ### Counts of the event stream -/

/-- Counting over a flattened map is the sum of the blockwise counts. -/
theorem count_flatMap_eq {α : Type} (f : α → List String) (k : String) :
    ∀ l : List α,
    List.count k (l.flatMap f) = (l.map fun s => List.count k (f s)).sum := by
  intro l
  induction l with
  | nil => simp
  | cons s l ih => simp [List.flatMap_cons, List.count_append, ih]

/-- The events one (simplex, constellation) pair produces count the
matching fingerprints, and only the constellation's own name occurs. -/
theorem count_fpEvents (stars : List Point) (s : Simplex) (name k : String)
    (fps : List Fp) :
    List.count k (fpEvents stars s name fps) =
      if name = k then
        fps.countP fun fp => fpMatches (simplexBarcode stars s) fp
      else 0 := by
  induction fps with
  | nil => simp [fpEvents]
  | cons fp fps ih =>
    unfold fpEvents at ih ⊢
    by_cases hm : fpMatches (simplexBarcode stars s) fp = true
    · by_cases hk : name = k
      · subst hk
        simp [List.filterMap_cons, hm, ih, List.countP_cons]
      · have hkn : ¬ k = name := fun hh => hk hh.symm
        simp [List.filterMap_cons, hm, ih, List.countP_cons, hk, hkn]
    · rw [Bool.not_eq_true] at hm
      simp [List.filterMap_cons, hm, ih, List.countP_cons]

/-- A name outside the database keys never occurs among a simplex's
events. -/
theorem count_simplexEvents_zero (stars : List Point) (s : Simplex)
    (k : String) :
    ∀ db : Db, k ∉ db.map Prod.fst →
    List.count k (simplexEvents stars db s) = 0 := by
  intro db
  induction db with
  | nil => intro _; simp [simplexEvents]
  | cons nf db ih =>
    intro h
    simp only [List.map_cons, List.mem_cons, not_or] at h
    rw [simplexEvents_cons, List.count_append,
      count_fpEvents stars s nf.1 k nf.2, if_neg (fun hh => h.1 hh.symm),
      ih h.2]

/-- Against a database with distinct keys, the events one simplex
produces mention a constellation once per matching fingerprint of that
constellation. -/
theorem count_simplexEvents (stars : List Point) (s : Simplex) (name : String)
    (fps : List Fp) :
    ∀ db : Db, (db.map Prod.fst).Nodup → (name, fps) ∈ db →
    List.count name (simplexEvents stars db s) =
      fps.countP fun fp => fpMatches (simplexBarcode stars s) fp := by
  intro db
  induction db with
  | nil => intro _ h; simp at h
  | cons nf db ih =>
    intro hnd hmem
    simp only [List.map_cons, List.nodup_cons] at hnd
    rw [simplexEvents_cons, List.count_append]
    rcases List.mem_cons.mp hmem with rfl | h2
    · rw [count_fpEvents, if_pos rfl, count_simplexEvents_zero stars s name db hnd.1]
      simp
    · have hne : ¬ nf.1 = name := by
        intro hh
        exact hnd.1 (hh ▸ List.mem_map_of_mem Prod.fst h2)
      rw [count_fpEvents, if_neg hne, ih hnd.2 h2]
      omega

/-! ### Unpacking a successful run of match_patterns -/

/-- A run that reports a winner went through the scoring phase: the
winner is the max-scan result on the final vote dict, that dict is
nonempty, and the returned simplices are the full scan log. -/
theorem winner_run (delaunay : List Point → List Simplex)
    (stars : List Point) (db : Db) (w : String)
    (hw : (match_patterns delaunay stars (some db)).winner = some w) :
    maxByVal (scoreFold stars db (delaunay stars)).1 = some w ∧
    (scoreFold stars db (delaunay stars)).1 ≠ [] ∧
    (match_patterns delaunay stars (some db)).simplices =
      some (scoreFold stars db (delaunay stars)).2 := by
  by_cases hlen : stars.length < 4
  · simp [match_patterns, hlen] at hw
  · simp only [match_patterns, if_neg hlen] at hw ⊢
    unfold scorePhase at hw ⊢
    by_cases hm : (scoreFold stars db (delaunay stars)).1 = []
    · rw [if_pos hm] at hw
      simp at hw
    · rw [if_neg hm] at hw ⊢
      exact ⟨hw, hm, rfl⟩

/-! ### Claim C2: vote counts -/

/-- C2 (amended): against a database with distinct constellation names,
the final vote count of a constellation equals the number of
(triangulation triangle, reference fingerprint of that constellation)
pairs whose zipped entries all differ by strictly less than 0.05 — one
vote per matching fingerprint, so a triangle that matches several of the
constellation's fingerprints votes several times for it. -/
theorem C2_vote_count (delaunay : List Point → List Simplex)
    (stars : List Point) (db : Db) (name : String) (fps : List Fp)
    (hnd : (db.map Prod.fst).Nodup) (hmem : (name, fps) ∈ db) :
    lookup0 name (scoreFold stars db (delaunay stars)).1 =
      ((delaunay stars).map fun s =>
        fps.countP fun fp => fpMatches (simplexBarcode stars s) fp).sum := by
  rw [scoreFold_eq]
  simp only
  rw [foldl_bump_lookup0]
  simp only [lookup0, Nat.zero_add]
  unfold voteEvents
  rw [count_flatMap_eq]
  congr 1
  exact List.map_congr_left fun s _ => count_simplexEvents stars s name fps db hnd hmem

/-! ### Claim C3: winner selection -/

/-- C3: whenever `match_patterns` reports a winner, the winner received
at least one vote, its vote count (= its number of occurrences in the
chronological event stream) is maximal, and among constellations with
the same vote count the winner is the one whose first vote (first
occurrence in the event stream) came earliest; the model is a pure
function of its inputs, so repeated runs on the same input return the
same winner. -/
theorem C3_winner_selection (delaunay : List Point → List Simplex)
    (stars : List Point) (db : Db) (w : String)
    (hw : (match_patterns delaunay stars (some db)).winner = some w) :
    w ∈ voteEvents stars db (delaunay stars) ∧
    (∀ n : String,
      List.count n (voteEvents stars db (delaunay stars)) ≤
        List.count w (voteEvents stars db (delaunay stars))) ∧
    (∀ n : String, n ∈ voteEvents stars db (delaunay stars) →
      List.count n (voteEvents stars db (delaunay stars)) =
        List.count w (voteEvents stars db (delaunay stars)) →
      List.indexOf w (voteEvents stars db (delaunay stars)) ≤
        List.indexOf n (voteEvents stars db (delaunay stars))) := by
  obtain ⟨hmax, hne, _⟩ := winner_run delaunay stars db w hw
  set evs := voteEvents stars db (delaunay stars) with hevs
  set M := (scoreFold stars db (delaunay stars)).1 with hMdef
  have hMfold : M = evs.foldl bump [] := by
    rw [hMdef, scoreFold_eq]
  have hkeys : M.map Prod.fst = newOnes [] evs := by
    rw [hMfold, foldl_bump_keys]
    simp
  have hpw : (M.map Prod.fst).Pairwise fun a b => evs.indexOf a < evs.indexOf b := by
    rw [hkeys]
    exact newOnes_pairwise evs []
  have hnd : (M.map Prod.fst).Nodup :=
    hpw.imp fun hab heq => absurd (heq ▸ hab) (lt_irrefl _)
  have hlook : ∀ n, List.count n evs = lookup0 n M := by
    intro n
    rw [hMfold, foldl_bump_lookup0]
    simp [lookup0]
  obtain ⟨e, rest, hM2⟩ := List.exists_cons_of_ne_nil hne
  rw [hM2] at hmax
  simp only [maxByVal, Option.some.injEq] at hmax
  obtain ⟨hmaxv, l1, l2, hsplit, hlt⟩ := firstMax_spec rest e
  have hMsplit : M = l1 ++ firstMax e rest :: l2 := by rw [hM2, hsplit]
  have hmaxv' : ∀ x ∈ M, x.2 ≤ (firstMax e rest).2 := by
    rw [hM2]
    exact hmaxv
  have hfmMem : firstMax e rest ∈ M := by
    rw [hMsplit]
    exact List.mem_append_right _ (List.mem_cons_self _ _)
  have hwkeys : w ∈ M.map Prod.fst := by
    rw [← hmax]
    exact List.mem_map_of_mem Prod.fst hfmMem
  have hwevs : w ∈ evs := (newOnes_mem evs [] w (hkeys ▸ hwkeys)).2
  have hfmPair : (w, (firstMax e rest).2) = firstMax e rest := by
    rw [← hmax]
  have hlookw : lookup0 w M = (firstMax e rest).2 :=
    mem_lookup0 w _ M hnd (hfmPair ▸ hfmMem)
  have hcountw : List.count w evs = (firstMax e rest).2 := by
    rw [hlook w, hlookw]
  refine ⟨hwevs, ?_, ?_⟩
  · intro n
    by_cases hn : n ∈ M.map Prod.fst
    · have hmm := lookup0_mem n M hn
      have := hmaxv' _ hmm
      rw [hlook n, hcountw]
      exact this
    · have hnin : n ∉ evs := fun hin =>
        hn (hkeys ▸ mem_newOnes evs [] n hin (by simp))
      rw [List.count_eq_zero.mpr hnin]
      exact Nat.zero_le _
  · intro n hn hcount
    have hnK : n ∈ M.map Prod.fst := hkeys ▸ mem_newOnes evs [] n hn (by simp)
    have hmemn : (n, lookup0 n M) ∈ M := lookup0_mem n M hnK
    have hval : lookup0 n M = (firstMax e rest).2 := by
      rw [← hlook n, hcount, hcountw]
    by_cases hnw : n = w
    · subst hnw
      exact le_rfl
    · have hmem2 : (n, (firstMax e rest).2) ∈ l1 ++ firstMax e rest :: l2 := by
        rw [← hMsplit]
        exact hval ▸ hmemn
      rcases List.mem_append.mp hmem2 with h1 | h1
      · exact absurd (hlt _ h1) (lt_irrefl _)
      · rcases List.mem_cons.mp h1 with heq | h2
        · exact absurd ((congrArg Prod.fst heq).trans hmax) hnw
        · have hkeysM : M.map Prod.fst =
              l1.map Prod.fst ++ w :: l2.map Prod.fst := by
            rw [hMsplit]
            simp [hmax]
          rw [hkeysM] at hpw
          have hpw2 : (w :: l2.map Prod.fst).Pairwise
              fun a b => evs.indexOf a < evs.indexOf b :=
            hpw.sublist (List.sublist_append_right _ _)
          have hlt2 : evs.indexOf w < evs.indexOf n :=
            List.rel_of_pairwise_cons hpw2 (List.mem_map_of_mem Prod.fst h2)
          exact hlt2.le

/-! ### Claim C1: the returned simplex list -/

/-- C1 (amended): whenever `match_patterns` reports a winner, the
returned triangle list is the full scan log: each triangulation
triangle appears once per (constellation, reference fingerprint) pair it
matched within tolerance, across all constellations — not only the
winner's — in scan order, so triangles that voted only for losing
constellations are included and a triangle matching several fingerprints
appears several times. -/
theorem C1_overlay_list (delaunay : List Point → List Simplex)
    (stars : List Point) (db : Db) (w : String)
    (hw : (match_patterns delaunay stars (some db)).winner = some w) :
    (match_patterns delaunay stars (some db)).simplices =
      some ((delaunay stars).flatMap fun s =>
        List.replicate (simplexEvents stars db s).length s) := by
  obtain ⟨_, _, hs⟩ := winner_run delaunay stars db w hw
  rw [hs, scoreFold_eq]

/-! ### Evaluating the concrete example run -/

/-- The 3-4-5 triangle's barcode: ratios 0.6 and 0.8. -/
theorem bcA : simplexBarcode exStars triA = [some 0.6, some 0.8] := by
  show triBarcode ((0 : ℝ), (0 : ℝ)) ((3 : ℝ), (0 : ℝ)) ((3 : ℝ), (4 : ℝ)) =
    [some 0.6, some 0.8]
  have h1 : dist ((0 : ℝ), (0 : ℝ)) ((3 : ℝ), (0 : ℝ)) = 3 :=
    dist_eval 0 0 3 0 3 (by norm_num) (by norm_num)
  have h2 : dist ((3 : ℝ), (0 : ℝ)) ((3 : ℝ), (4 : ℝ)) = 4 :=
    dist_eval 3 0 3 4 4 (by norm_num) (by norm_num)
  have h3 : dist ((3 : ℝ), (4 : ℝ)) ((0 : ℝ), (0 : ℝ)) = 5 :=
    dist_eval 3 4 0 0 5 (by norm_num) (by norm_num)
  have hsort : sort3 (3 : ℝ) 4 5 = [3, 4, 5] := by
    unfold sort3
    rw [if_pos (by norm_num : (3 : ℝ) ≤ 4), if_pos (by norm_num : (4 : ℝ) ≤ 5)]
  unfold triBarcode sideLens
  rw [h1, h2, h3, hsort, getD3_0, getD3_1, getD3_2]
  unfold fdiv
  rw [if_neg (by norm_num : ¬ (5 : ℝ) = 0), if_neg (by norm_num : ¬ (5 : ℝ) = 0)]
  unfold pyRound2
  simp only [Option.map_some']
  rw [round2_eval (3 / 5) 60 (by norm_num) (by norm_num),
    round2_eval (4 / 5) 80 (by norm_num) (by norm_num)]
  norm_num

/-- The 5-12-13 triangle's barcode: ratios rounded to 0.38 and 0.92. -/
theorem bcB : simplexBarcode exStars triB = [some 0.38, some 0.92] := by
  show triBarcode ((0 : ℝ), (0 : ℝ)) ((12 : ℝ), (0 : ℝ)) ((12 : ℝ), (5 : ℝ)) =
    [some 0.38, some 0.92]
  have h1 : dist ((0 : ℝ), (0 : ℝ)) ((12 : ℝ), (0 : ℝ)) = 12 :=
    dist_eval 0 0 12 0 12 (by norm_num) (by norm_num)
  have h2 : dist ((12 : ℝ), (0 : ℝ)) ((12 : ℝ), (5 : ℝ)) = 5 :=
    dist_eval 12 0 12 5 5 (by norm_num) (by norm_num)
  have h3 : dist ((12 : ℝ), (5 : ℝ)) ((0 : ℝ), (0 : ℝ)) = 13 :=
    dist_eval 12 5 0 0 13 (by norm_num) (by norm_num)
  have hsort : sort3 (12 : ℝ) 5 13 = [5, 12, 13] := by
    unfold sort3
    rw [if_neg (by norm_num : ¬ (12 : ℝ) ≤ 5), if_pos (by norm_num : (12 : ℝ) ≤ 13)]
  unfold triBarcode sideLens
  rw [h1, h2, h3, hsort, getD3_0, getD3_1, getD3_2]
  unfold fdiv
  rw [if_neg (by norm_num : ¬ (13 : ℝ) = 0), if_neg (by norm_num : ¬ (13 : ℝ) = 0)]
  unfold pyRound2
  simp only [Option.map_some']
  rw [round2_eval (5 / 13) 38 (by norm_num) (by norm_num),
    round2_eval (12 / 13) 92 (by norm_num) (by norm_num)]
  norm_num

/-- The 3-4-5 barcode matches fingerprint A. -/
theorem fpm_AA : fpMatches [some (0.6 : ℝ), some 0.8] fpA = true := by
  simp only [fpMatches, fpA, List.zip_cons_cons, List.zip_nil_right, List.all_cons,
    List.all_nil, Bool.and_true, Bool.and_eq_true, decide_eq_true_eq]
  norm_num

/-- The 3-4-5 barcode does not match fingerprint B. -/
theorem fpm_AB : fpMatches [some (0.6 : ℝ), some 0.8] fpB = false := by
  have h : ¬ |(0.6 : ℝ) - 0.38| < 0.05 := by
    rw [show (0.6 : ℝ) - 0.38 = 0.22 by norm_num, abs_of_pos (by norm_num)]
    norm_num
  simp [fpMatches, fpB, h]

/-- The 5-12-13 barcode does not match fingerprint A. -/
theorem fpm_BA : fpMatches [some (0.38 : ℝ), some 0.92] fpA = false := by
  have h : ¬ |(0.38 : ℝ) - 0.6| < 0.05 := by
    rw [show (0.38 : ℝ) - 0.6 = -(0.22) by norm_num, abs_neg,
      abs_of_pos (by norm_num)]
    norm_num
  simp [fpMatches, fpA, h]

/-- The 5-12-13 barcode matches fingerprint B. -/
theorem fpm_BB : fpMatches [some (0.38 : ℝ), some 0.92] fpB = true := by
  simp only [fpMatches, fpB, List.zip_cons_cons, List.zip_nil_right, List.all_cons,
    List.all_nil, Bool.and_true, Bool.and_eq_true, decide_eq_true_eq]
  norm_num

/-- The concrete scan in full: A gets one vote from the 3-4-5 triangle,
B gets two votes from the 5-12-13 triangle (one per copy of its
fingerprint), and the log holds the 5-12-13 triangle twice. -/
theorem exFold :
    scoreFold exStars exDb exTri = ([(nameA, 1), (nameB, 2)], [triA, triB, triB]) := by
  have hAB : ¬ nameA = nameB := by decide
  have hBA : ¬ nameB = nameA := by decide
  unfold scoreFold exDb exTri exFpsB
  simp only [List.foldl_cons, List.foldl_nil]
  unfold stepFp
  rw [bcA, bcB, fpm_AA, fpm_AB, fpm_BA, fpm_BB]
  simp [bump, hAB, hBA]

/-- The concrete run in full: B wins with two votes, and the returned
list is the raw log `[triA, triB, triB]`. -/
theorem exRun : match_patterns exDelaunay exStars (some exDb) =
    ⟨some nameB, some [triA, triB, triB], successStatus⟩ := by
  have hlen : ¬ exStars.length < 4 := by norm_num [exStars]
  simp only [match_patterns, if_neg hlen]
  unfold exDelaunay scorePhase
  rw [exFold]
  simp [maxByVal, firstMax]

/-- C1 counterexample: on the concrete run the winner is B, but the
returned triangle list `[triA, triB, triB]` contains the 3-4-5 triangle
`triA` — which matches no descriptor of the winner B, having voted only
for the losing constellation A — and contains the winner's triangle
`triB` twice (once per matching fingerprint), so the list is neither
restricted to the winner's voters nor duplicate-free. -/
theorem C1_counterexample :
    (match_patterns exDelaunay exStars (some exDb)).winner = some nameB ∧
    (match_patterns exDelaunay exStars (some exDb)).simplices =
      some [triA, triB, triB] ∧
    triA ≠ triB ∧
    fpMatches (simplexBarcode exStars triA) fpB = false := by
  refine ⟨by rw [exRun], by rw [exRun], by decide, ?_⟩
  rw [bcA]
  exact fpm_AB

/-- Witness for C1_overlay_list at the concrete run. -/
theorem C1_overlay_list_witness :
    (match_patterns exDelaunay exStars (some exDb)).simplices =
      some ((exDelaunay exStars).flatMap fun s =>
        List.replicate (simplexEvents exStars exDb s).length s) :=
  C1_overlay_list exDelaunay exStars exDb nameB (by rw [exRun])

/-- C2 counterexample: on the concrete run constellation B's vote count
is 2, yet only one triangulation triangle (the 5-12-13 one) matches at
least one of B's reference descriptors — the single triangle voted once
per matching fingerprint, not at most once per constellation. -/
theorem C2_counterexample :
    lookup0 nameB (scoreFold exStars exDb exTri).1 = 2 ∧
    (exTri.countP fun s =>
      exFpsB.any fun fp => fpMatches (simplexBarcode exStars s) fp) = 1 := by
  have hAB : ¬ nameA = nameB := by decide
  constructor
  · rw [exFold]
    simp [lookup0, hAB]
  · unfold exTri exFpsB
    simp only [List.countP_cons, List.countP_nil, List.any_cons, List.any_nil,
      bcA, bcB, fpm_AB, fpm_BB]
    rfl

/-- Witness for C2_vote_count at the concrete run. -/
theorem C2_vote_count_witness :
    (exDb.map Prod.fst).Nodup ∧ (nameB, exFpsB) ∈ exDb ∧
    lookup0 nameB (scoreFold exStars exDb (exDelaunay exStars)).1 =
      ((exDelaunay exStars).map fun s =>
        exFpsB.countP fun fp => fpMatches (simplexBarcode exStars s) fp).sum := by
  have hnd : (exDb.map Prod.fst).Nodup := by
    unfold exDb
    simp [nameA, nameB]
  have hmem : (nameB, exFpsB) ∈ exDb :=
    List.mem_cons_of_mem _ (List.mem_cons_self _ _)
  exact ⟨hnd, hmem, C2_vote_count exDelaunay exStars exDb nameB exFpsB hnd hmem⟩

/-- Witness for C3_winner_selection at the concrete run. -/
theorem C3_winner_selection_witness :
    nameB ∈ voteEvents exStars exDb (exDelaunay exStars) ∧
    (∀ n : String,
      List.count n (voteEvents exStars exDb (exDelaunay exStars)) ≤
        List.count nameB (voteEvents exStars exDb (exDelaunay exStars))) ∧
    (∀ n : String, n ∈ voteEvents exStars exDb (exDelaunay exStars) →
      List.count n (voteEvents exStars exDb (exDelaunay exStars)) =
        List.count nameB (voteEvents exStars exDb (exDelaunay exStars)) →
      List.indexOf nameB (voteEvents exStars exDb (exDelaunay exStars)) ≤
        List.indexOf n (voteEvents exStars exDb (exDelaunay exStars))) :=
  C3_winner_selection exDelaunay exStars exDb nameB (by rw [exRun])

/-! ### Claim C8: decoding failure in stargaze_engine -/

/-- C8 counterexample: for an input whose bytes do not decode
(`decode` returns `none`, as `cv2.imdecode` does), `stargaze_engine`
ends in an unhandled `cv2.error` escaping the function — not in a
dedicated, handled `ImageDecodeError` (no such class exists in the
source) — so a request-shaped input does cause an unhandled exception in
the core, refuting the claim. -/
theorem C8_counterexample :
    stargaze_engine (fun _ => (none : Option Unit)) (fun i _ _ => ([], i)) [0] 150 5 =
      .unhandledExc cvErrorName ∧ cvErrorName ≠ imageDecodeErrorName :=
  ⟨rfl, by decide⟩

/-- C8 amended: for every byte input that cannot be decoded,
`cv2.imdecode` returns `None` and the immediately following
`cv2.cvtColor` call raises `cv2.error`, which `stargaze_engine` — having
no try/except — propagates unhandled to its caller; the source defines
no `ImageDecodeError`. -/
theorem C8_decode_failure {Img : Type} (decode : List ℕ → Option Img)
    (extract : Img → ℕ → ℕ → List Point × Img) (imgBytes : List ℕ)
    (threshVal minArea : ℕ) (h : decode imgBytes = none) :
    stargaze_engine decode extract imgBytes threshVal minArea =
      .unhandledExc cvErrorName := by
  simp [stargaze_engine, h]

/-- Witness for C8_decode_failure at a concrete undecodable input. -/
theorem C8_decode_failure_witness :
    stargaze_engine (fun _ => (none : Option Unit)) (fun i _ _ => ([], i)) [1, 2] 150 5 =
      .unhandledExc cvErrorName :=
  C8_decode_failure (fun _ => none) (fun i _ _ => ([], i)) [1, 2] 150 5 rfl

end Stargaze
